import Mathlib

/-!
The one-shot reader, the console writer, shutdown and startup of mtail.

A shallow embedding of `mtail.go`.  Go strings and byte slices are lists of
bytes.  Channel sends, channel closes and calls into the rest of the program
are recorded, in program order, as a trace of events; a send is taken to be
accepted by its receiver.  Loops whose termination is not syntactic carry a
fuel argument and return `none` when it runs out; the theorems show that the
fuel handed over by the callers is always enough.
-/

namespace Mtail

/-! ## Bytes and strings -/

/-- A Go `byte`. -/
abbrev Byte := Fin 256

/-- A Go `string` (and a `[]byte`): a finite sequence of bytes. -/
abbrev GoString := List Byte

/-- The byte of the rune literal `'\n'`. -/
def newline : Byte := 10

/-- The byte of the separator `","` handed to `strings.Split`. -/
def comma : Byte := 44

/-! ## Files and the buffered reader -/

/-- The error with which the reads of a file end: `io.EOF`, or another error. -/
inductive ReadErr where
  | EOF
  | other (msg : GoString)
  deriving DecidableEq, Repr

/-- An opened file seen through its reads: the bytes the reads deliver, and
the error the read after the last byte returns. -/
structure File where
  data : GoString
  fin : ReadErr
  deriving DecidableEq, Repr

/-- A `bufio.Reader` over a file: the bytes not yet handed out, and the error
waiting behind them. -/
structure Reader where
  rest : GoString
  fin : ReadErr
  deriving DecidableEq, Repr

/-- The call `bufio.NewReader(l)`. -/
def NewReader (l : File) : Reader := ⟨l.data, l.fin⟩

/-- Cut a byte sequence after the first occurrence of `delim`: the part up to
and including the delimiter, and what follows it; `none` when `delim` does
not occur. -/
def cutAfter (delim : Byte) : GoString → Option (GoString × GoString)
  | [] => none
  | b :: bs =>
    if b = delim then some ([b], bs)
    else match cutAfter delim bs with
      | none => none
      | some (line, rest) => some (b :: line, rest)

/-- The method `(*bufio.Reader).ReadString(delim)`: the data up to and including the
first `delim`, with a nil error; when an error is met before a delimiter is
found, the data read before the error together with that error. -/
def Reader.ReadString (r : Reader) (delim : Byte) : (GoString × Option ReadErr) × Reader :=
  match cutAfter delim r.rest with
  | some (line, rest) => ((line, none), { r with rest := rest })
  | none => ((r.rest, some r.fin), { r with rest := [] })

/-! ## Events -/

/-- What the program does to its channels and to the rest of the system. -/
inductive Event where
  /-- The send `lines <- line`. -/
  | linesSend (line : GoString)
  /-- The send `stop <- v`. -/
  | stopSend (v : Bool)
  /-- The call `os.Open(logfile)`. -/
  | fileOpen (logfile : GoString)
  /-- The call `l.Close()` on the file opened for `logfile`. -/
  | fileClose (logfile : GoString)
  /-- The call `close(m.lines)`. -/
  | linesClose
  /-- The call `log.Print(msg)`. -/
  | logPrint (msg : String)
  /-- The call `p.LoadProgs(dir)`. -/
  | loadProgs (dir : GoString)
  /-- The statement `go e.run(m.lines, m.stop)`. -/
  | engineRun
  /-- The call `os.Stdout.Write(b)`, the JSON snapshot of the metrics. -/
  | stdoutWrite
  /-- The call `WriteMetrics()`. -/
  | writeMetrics
  /-- The statement `go m.interruptHandler()`. -/
  | interruptHandler
  /-- The call `t.Tail(pathname)`. -/
  | tail (pathname : GoString)
  /-- The call `log.SetOutput(m)`. -/
  | setLogOutput
  /-- The calls `http.Handle` and `http.HandleFunc` on a pattern. -/
  | httpHandle (pattern : String)
  /-- The call `StartMetricPush()`. -/
  | metricPush
  /-- The call of `http.ListenAndServe` on the port. -/
  | listenAndServe (port : GoString)
  deriving DecidableEq, Repr

/-- The strings sent on the lines channel, in the order of the sends. -/
def linesSent : List Event → List GoString
  | [] => []
  | Event.linesSend line :: es => line :: linesSent es
  | _ :: es => linesSent es

/-- The values sent on the stop channel, in the order of the sends. -/
def stopsSent : List Event → List Bool
  | [] => []
  | Event.stopSend v :: es => v :: stopsSent es
  | _ :: es => stopsSent es

/-! ## OneShot -/

/-- The errors `OneShot` builds with `fmt.Errorf`. -/
inductive OneShotErr where
  /-- The error `"Failed to open log file %q: %s"`. -/
  | openFailed (logfile : GoString) (cause : GoString)
  /-- The error `"Failed to read from %q: %s"`. -/
  | readFailed (logfile : GoString) (cause : ReadErr)
  deriving DecidableEq, Repr

/-- The `for` loop of `OneShot`: the events of the loop and the value the
`return` inside it gives; `none` when the fuel runs out. -/
def OneShot.loop (logfile : GoString) : Nat → Reader → Option (List Event × Option OneShotErr)
  | 0, _ => none
  | fuel + 1, r =>
    match r.ReadString newline with
    | ((_, some ReadErr.EOF), _) => some ([], none)
    | ((_, some err), _) => some ([], some (OneShotErr.readFailed logfile err))
    | ((line, none), r1) =>
      match OneShot.loop logfile fuel r1 with
      | none => none
      | some (es, ret) => some (Event.linesSend line :: es, ret)

/-- The method `(*mtail).OneShot(logfile, lines, stop)`, given the result of
`os.Open(logfile)`.  The deferred calls run after the body, last deferred
first: `l.Close()` when the open succeeded, then `stop <- true`. -/
def OneShot (logfile : GoString) (opened : Except GoString File) :
    Option (List Event × Option OneShotErr) :=
  match opened with
  | Except.error err =>
    some ([Event.fileOpen logfile, Event.stopSend true],
      some (OneShotErr.openFailed logfile err))
  | Except.ok l =>
    let r := NewReader l
    match OneShot.loop logfile (r.rest.length + 1) r with
    | none => none
    | some (es, ret) =>
      some (Event.fileOpen logfile :: es ++ [Event.fileClose logfile, Event.stopSend true], ret)

/-! ## Write -/

/-- The constant `utf8.RuneError`, the rune U+FFFD. -/
def RuneError : Nat := 0xFFFD

/-- The table `first` of package `unicode/utf8`: information about the first
byte of an encoding.  `0xF0` marks an ASCII byte, `0xF1` an invalid one; in
the other entries the low three bits give the size of the encoding and the
high four bits index `acceptRanges`. -/
def first (b : Byte) : Nat :=
  if b.val < 0x80 then 0xF0
  else if b.val < 0xC2 then 0xF1
  else if b.val < 0xE0 then 0x02
  else if b.val = 0xE0 then 0x13
  else if b.val < 0xED then 0x03
  else if b.val = 0xED then 0x23
  else if b.val < 0xF0 then 0x03
  else if b.val = 0xF0 then 0x34
  else if b.val < 0xF4 then 0x04
  else if b.val = 0xF4 then 0x44
  else 0xF1

/-- The table `acceptRanges` of package `unicode/utf8`: the range `(lo, hi)`
allowed for the second byte of an encoding. -/
def acceptRanges (k : Nat) : Nat × Nat :=
  match k with
  | 0 => (0x80, 0xBF)
  | 1 => (0xA0, 0xBF)
  | 2 => (0x80, 0x9F)
  | 3 => (0x90, 0xBF)
  | 4 => (0x80, 0x8F)
  | _ => (0, 0)

/-- The function `utf8.DecodeRune(p)`: the first rune of `p` and the number of bytes of its
encoding; `(RuneError, 0)` for an empty `p` and `(RuneError, 1)` for an
invalid encoding.  For a first byte with `x >= as` the mask of the source
selects `RuneError` exactly when `x` is `0xF1`, and the byte itself when `x`
is `0xF0`. -/
def DecodeRune (p : List Byte) : Nat × Nat :=
  match p with
  | [] => (RuneError, 0)
  | p0 :: t =>
    let x := first p0
    if x ≥ 0xF0 then
      if x = 0xF1 then (RuneError, 1) else (p0.val, 1)
    else
      let sz := x &&& 7
      let accept := acceptRanges (x >>> 4)
      if p.length < sz then (RuneError, 1)
      else match t with
      | [] => (RuneError, 1)
      | b1 :: t1 =>
        if b1.val < accept.1 ∨ accept.2 < b1.val then (RuneError, 1)
        else if sz ≤ 2 then ((p0.val &&& 0x1F) <<< 6 ||| (b1.val &&& 0x3F), 2)
        else match t1 with
        | [] => (RuneError, 1)
        | b2 :: t2 =>
          if b2.val < 0x80 ∨ 0xBF < b2.val then (RuneError, 1)
          else if sz ≤ 3 then
            ((p0.val &&& 0x0F) <<< 12 ||| (b1.val &&& 0x3F) <<< 6 ||| (b2.val &&& 0x3F), 3)
          else match t2 with
          | [] => (RuneError, 1)
          | b3 :: _ =>
            if b3.val < 0x80 ∨ 0xBF < b3.val then (RuneError, 1)
            else ((p0.val &&& 0x07) <<< 18 ||| (b1.val &&& 0x3F) <<< 12
                    ||| (b2.val &&& 0x3F) <<< 6 ||| (b3.val &&& 0x3F), 4)

/-- The conversion `byte(v)`: the low eight bits of `v`. -/
def toByte (v : Nat) : Byte := ⟨v % 256, Nat.mod_lt _ (by decide)⟩

/-- The three bytes of the UTF-8 encoding of a rune below `0x10000`. -/
def encode3 (r : Nat) : GoString :=
  [toByte (0xE0 ||| (r >>> 12)), toByte (0x80 ||| ((r >>> 6) &&& 0x3F)),
   toByte (0x80 ||| (r &&& 0x3F))]

/-- The conversion `string(r)` of a rune, as the runtime encodes it: the UTF-8
encoding of `r`, and that of U+FFFD when `r` is a surrogate or above
U+10FFFF. -/
def runeString (r : Nat) : GoString :=
  if r ≤ 0x7F then [toByte r]
  else if r ≤ 0x7FF then [toByte (0xC0 ||| (r >>> 6)), toByte (0x80 ||| (r &&& 0x3F))]
  else if r > 0x10FFFF ∨ (0xD800 ≤ r ∧ r ≤ 0xDFFF) then encode3 RuneError
  else if r ≤ 0xFFFF then encode3 r
  else [toByte (0xF0 ||| (r >>> 18)), toByte (0x80 ||| ((r >>> 12) &&& 0x3F)),
        toByte (0x80 ||| ((r >>> 6) &&& 0x3F)), toByte (0x80 ||| (r &&& 0x3F))]

/-- A Go channel as far as the program uses it: its capacity and whether it
has been closed. -/
structure Chan where
  cap : Nat
  closed : Bool
  deriving DecidableEq, Repr

/-- The struct `mtail`; `closeOnce` holds whether the `sync.Once` has run. -/
structure mtail where
  console : List GoString
  lines : Chan
  stop : Chan
  closeOnce : Bool
  deriving DecidableEq, Repr

/-- The constructor `NewMtail()`: an unbuffered lines channel, a stop channel of capacity one,
the other fields at their zero values. -/
def NewMtail : mtail :=
  { console := [], lines := ⟨0, false⟩, stop := ⟨1, false⟩, closeOnce := false }

/-- The decoding loop of `Write`, `for i, width := 0, 0; i < len(p); i += width`,
from index `i` with the string `s` built so far; `none` when the fuel runs
out before the loop condition fails. -/
def Write.loop (p : List Byte) : Nat → Nat → GoString → Option GoString
  | 0, i, s => if i < p.length then none else some s
  | fuel + 1, i, s =>
    if i < p.length then
      let d := DecodeRune (p.drop i)
      Write.loop p fuel (i + d.2) (s ++ runeString d.1)
    else some s

/-- The method `(*mtail).Write(p)`: the receiver after the call, the count `n` and the
error (`none` for nil). -/
def mtail.Write (m : mtail) (p : List Byte) : Option (mtail × Nat × Option GoString) :=
  match Write.loop p p.length 0 [] with
  | none => none
  | some s => some ({ m with console := m.console ++ [s] }, s.length, none)

/-! ## Close -/

/-- A run-time panic of a channel operation. -/
inductive Panic where
  | closeOfClosedChannel
  deriving DecidableEq, Repr

/-- The receiver together with the events so far. -/
structure State where
  m : mtail
  trace : List Event
  deriving DecidableEq, Repr

/-- The method `(*mtail).close()`: log, then `close(m.lines)`, which panics on a channel
that is already closed. -/
def mtail.close (st : State) : Except Panic State :=
  let st1 : State := { st with trace := st.trace ++ [Event.logPrint "Shutdown requested."] }
  if st1.m.lines.closed then Except.error Panic.closeOfClosedChannel
  else Except.ok
    { m := { st1.m with lines := { st1.m.lines with closed := true } },
      trace := st1.trace ++ [Event.linesClose] }

/-- The method `(*mtail).Close()`, that is `m.closeOnce.Do(m.close)`: `close` runs only
when the `sync.Once` has not run yet, and the `sync.Once` is marked as run
when `close` returns. -/
def mtail.Close (st : State) : Except Panic State :=
  if st.m.closeOnce then Except.ok st
  else match mtail.close st with
    | Except.ok st1 => Except.ok { st1 with m := { st1.m with closeOnce := true } }
    | Except.error e => Except.error e

/-- A sequence of `n` calls to `Close`. -/
def closeTimes : Nat → State → Except Panic State
  | 0, st => Except.ok st
  | n + 1, st =>
    match mtail.Close st with
    | Except.ok st1 => closeTimes n st1
    | Except.error e => Except.error e

/-- The number of times `close(m.lines)` was executed. -/
def closeCount (tr : List Event) : Nat := tr.count Event.linesClose

/-! ## Serve -/

/-- The function `strings.Split(s, sep)` for a separator of one byte: the fields of `s`
between the occurrences of `sep`, one more than there are occurrences. -/
def Split : GoString → Byte → List GoString
  | [], _ => [[]]
  | b :: bs, sep =>
    if b = sep then [] :: Split bs sep
    else match Split bs sep with
      | [] => [[b]]
      | f :: fs => (b :: f) :: fs

/-- The command-line flags. -/
structure Flags where
  port : GoString
  logs : GoString
  progs : GoString
  one_shot : Bool
  dump_bytecode : Bool
  compile_only : Bool
  deriving DecidableEq, Repr

/-- What the rest of the program and the system answer to `Serve`. -/
structure Env where
  /-- The error of `NewInotifyWatcher()` in `Serve`, `none` for nil. -/
  watcherErr : Option GoString
  /-- Whether `NewProgLoader(w)` returns nil. -/
  loaderNil : Bool
  /-- The count `errors` returned by `p.LoadProgs(*progs)`. -/
  loadErrors : Int
  /-- The result of `os.Open` in the `k`-th call of `OneShot`. -/
  openFile : Nat → GoString → Except GoString File
  /-- The error of `json.MarshalIndent` on the metrics, `none` for nil. -/
  marshalErr : Option GoString
  /-- The error of `NewInotifyWatcher()` in `StartTailing`, `none` for nil. -/
  tailWatcherErr : Option GoString
  /-- Whether `NewTailer(m.lines, tw)` returns nil. -/
  tailerNil : Bool
  /-- The error with which `http.ListenAndServe` returns, `none` when it never
  returns. -/
  listenErr : Option GoString

/-- The calls of `log.Fatal` and `log.Fatalf`: each logs its message and calls
`os.Exit(1)`. -/
inductive Fatal where
  /-- The message `"No mtail program directory specified; use -progs"`. -/
  | noProgs
  /-- The message `"No logs specified to tail; use -logs"`. -/
  | noLogs
  /-- The message of `Serve` that no inotify watcher could be created. -/
  | watcher (err : GoString)
  /-- The message that no program loader could be created. -/
  | loader
  /-- The message `"No logs to tail."`. -/
  | noLogsToTail
  /-- The message `"Failed one shot mode for %q: %s\n"`. -/
  | oneShot (pathname : GoString) (err : OneShotErr)
  /-- The message `"Failed to marshal metrics into json: %s"`. -/
  | marshal (err : GoString)
  /-- The message of `StartTailing` that no log path watcher could be created. -/
  | tailWatcher (err : GoString)
  /-- The message that no log tailer could be created. -/
  | tailer
  /-- The call `log.Fatal(http.ListenAndServe(...))`. -/
  | listen (err : GoString)
  deriving DecidableEq, Repr

/-- How a call of `Serve` ends. -/
inductive Outcome where
  /-- The call `os.Exit(status)`. -/
  | exit (status : Int)
  /-- A `log.Fatal`: the message is logged and the process exits with status 1. -/
  | fatal (f : Fatal)
  /-- The method `Serve` returns to `main`. -/
  | returned
  /-- The method `Serve` stays in `http.ListenAndServe`. -/
  | serving
  deriving DecidableEq, Repr

/-- The method `(*mtail).StartTailing(pathnames)`: its events and the `log.Fatal` that
ends it, if any. -/
def StartTailing (env : Env) (pathnames : List GoString) : List Event × Option Fatal :=
  match env.tailWatcherErr with
  | some err => ([], some (Fatal.tailWatcher err))
  | none =>
    if env.tailerNil then ([], some Fatal.tailer)
    else (pathnames.map Event.tail, none)

/-- The loop `for _, pathname := range pathnames` of the one-shot branch of
`Serve`, from the `k`-th call of `OneShot` on: the events, and the pathname
and error of the call that ended the loop with `log.Fatalf`, if any. -/
def Serve.oneShots (env : Env) : Nat → List GoString →
    Option (List Event × Option (GoString × OneShotErr))
  | _, [] => some ([], none)
  | k, pathname :: rest =>
    match OneShot pathname (env.openFile k pathname) with
    | none => none
    | some (es, some err) => some (es, some (pathname, err))
    | some (es, none) =>
      match Serve.oneShots env (k + 1) rest with
      | none => none
      | some (es1, r) => some (es ++ es1, r)

/-- The loop of `Serve` that collects the pathnames from the fields of
`-logs`. -/
def Serve.pathnames (logs : GoString) : List GoString :=
  (Split logs comma).foldl
    (fun pathnames pathname => if pathname ≠ [] then pathnames ++ [pathname] else pathnames) []

/-- The method `(*mtail).Serve()`: the events and the way the call ends. -/
def Serve (fl : Flags) (env : Env) : Option (List Event × Outcome) :=
  if fl.progs = [] then some ([], Outcome.fatal Fatal.noProgs)
  else if fl.logs = [] then some ([], Outcome.fatal Fatal.noLogs)
  else match env.watcherErr with
  | some err => some ([], Outcome.fatal (Fatal.watcher err))
  | none =>
    if env.loaderNil then some ([], Outcome.fatal Fatal.loader)
    else
      let t0 := [Event.loadProgs fl.progs]
      if fl.compile_only || fl.dump_bytecode then some (t0, Outcome.exit env.loadErrors)
      else
        let pathnames := Serve.pathnames fl.logs
        if pathnames.length = 0 then some (t0, Outcome.fatal Fatal.noLogsToTail)
        else
          let t1 := t0 ++ [Event.engineRun]
          if fl.one_shot then
            match Serve.oneShots env 0 pathnames with
            | none => none
            | some (es, some (pathname, err)) =>
              some (t1 ++ es, Outcome.fatal (Fatal.oneShot pathname err))
            | some (es, none) =>
              match env.marshalErr with
              | some err => some (t1 ++ es, Outcome.fatal (Fatal.marshal err))
              | none =>
                some (t1 ++ es ++ [Event.stdoutWrite, Event.writeMetrics], Outcome.returned)
          else
            let t2 := t1 ++ [Event.interruptHandler]
            match StartTailing env pathnames with
            | (es, some f) => some (t2 ++ es, Outcome.fatal f)
            | (es, none) =>
              let t3 := t2 ++ es ++ [Event.setLogOutput, Event.httpHandle "/",
                Event.httpHandle "/json", Event.httpHandle "/metrics", Event.metricPush,
                Event.listenAndServe fl.port]
              match env.listenErr with
              | some err => some (t3, Outcome.fatal (Fatal.listen err))
              | none => some (t3, Outcome.serving)

/-- The exit status of the process after `main` has called `Serve`.  After
`os.Exit(status)` it is the low eight bits of the argument, `status` modulo
256, which is what the system reports for the process; it is 1 after a
`log.Fatal`, and 0 when `Serve` returns and `main` with it; `none` while the
process keeps serving. -/
def exitStatus : Outcome → Option Int
  | Outcome.exit status => some (status % 256)
  | Outcome.fatal _ => some 1
  | Outcome.returned => some 0
  | Outcome.serving => none

/-- The function `main()`: the events of the process and its exit status. -/
def main (fl : Flags) (env : Env) : Option (List Event × Option Int) :=
  match Serve fl env with
  | none => none
  | some (tr, out) => some (tr, exitStatus out)

/-- An event that starts the engine, a one-shot read or tailing: the start of
the run loop, opening or closing a log file, a send on a channel, the start
of the interrupt handler that precedes `StartTailing`, or a `Tail`. -/
def Event.isStart : Event → Bool
  | Event.engineRun => true
  | Event.fileOpen _ => true
  | Event.linesSend _ => true
  | Event.stopSend _ => true
  | Event.fileClose _ => true
  | Event.tail _ => true
  | Event.interruptHandler => true
  | _ => false

/-- The pathnames `Serve` ingests: those opened by `OneShot` and those handed
to `Tail`, in the order of the calls. -/
def ingested : List Event → List GoString
  | [] => []
  | Event.fileOpen logfile :: es => logfile :: ingested es
  | Event.tail pathname :: es => pathname :: ingested es
  | _ :: es => ingested es

/-! ## What the spec calls the lines of a file -/

/-- The terminated lines of a content: the fields of the content split on
`'\n'`, the last field left out, each with its terminator put back. -/
def terminatedLines (c : GoString) : List GoString :=
  ((Split c newline).dropLast).map (fun f => f ++ [newline])

/-- The bytes after the last `'\n'` of a content (the whole content when it
has no `'\n'`): the last field of the content split on `'\n'`. -/
def lastField (c : GoString) : GoString :=
  (Split c newline).getLastD []

/-- The value `OneShot` returns when the reads of the file end with `fin`. -/
def retOf (logfile : GoString) : ReadErr → Option OneShotErr
  | ReadErr.EOF => none
  | ReadErr.other msg => some (OneShotErr.readFailed logfile (ReadErr.other msg))

/-- The events of a call of `OneShot`. -/
def oneShotTrace (logfile : GoString) : Except GoString File → List Event
  | Except.error _ => [Event.fileOpen logfile, Event.stopSend true]
  | Except.ok l => Event.fileOpen logfile :: (terminatedLines l.data).map Event.linesSend
      ++ [Event.fileClose logfile, Event.stopSend true]

/-- The error a call of `OneShot` returns. -/
def oneShotRet (logfile : GoString) : Except GoString File → Option OneShotErr
  | Except.error err => some (OneShotErr.openFailed logfile err)
  | Except.ok l => retOf logfile l.fin

/-! ## Lemmas on cutting and splitting -/

theorem cutAfter_eq_none {d : Byte} {s : GoString} (h : cutAfter d s = none) : d ∉ s := by
  induction s with
  | nil => simp
  | cons b bs ih =>
    unfold cutAfter at h
    by_cases hb : b = d
    · simp [hb] at h
    · simp only [hb, if_false] at h
      cases hc : cutAfter d bs with
      | none =>
        have := ih hc
        simp [this, Ne.symm hb]
      | some lr => simp [hc] at h

theorem cutAfter_eq_some {d : Byte} {s line rest : GoString}
    (h : cutAfter d s = some (line, rest)) :
    ∃ body, line = body ++ [d] ∧ d ∉ body ∧ s = body ++ d :: rest := by
  induction s generalizing line with
  | nil => simp [cutAfter] at h
  | cons b bs ih =>
    unfold cutAfter at h
    by_cases hb : b = d
    · simp only [hb, if_true, Option.some.injEq, Prod.mk.injEq] at h
      obtain ⟨h1, h2⟩ := h
      exact ⟨[], by simp [← h1], by simp, by simp [hb, h2]⟩
    · simp only [hb, if_false] at h
      cases hc : cutAfter d bs with
      | none => simp [hc] at h
      | some lr =>
        obtain ⟨l1, r1⟩ := lr
        simp only [hc, Option.some.injEq, Prod.mk.injEq] at h
        obtain ⟨h1, h2⟩ := h
        subst h2
        obtain ⟨body, hl, hn, hs⟩ := ih hc
        refine ⟨b :: body, ?_, ?_, ?_⟩
        · simp [← h1, hl]
        · simp [hn, Ne.symm hb]
        · simp [hs]

theorem Split_ne_nil (s : GoString) (d : Byte) : Split s d ≠ [] := by
  cases s with
  | nil => simp [Split]
  | cons b bs =>
    unfold Split
    by_cases hb : b = d
    · simp [hb]
    · simp only [hb, if_false]
      cases Split bs d <;> simp

theorem Split_of_not_mem {d : Byte} {s : GoString} (h : d ∉ s) : Split s d = [s] := by
  induction s with
  | nil => simp [Split]
  | cons b bs ih =>
    simp only [List.mem_cons, not_or] at h
    unfold Split
    simp [Ne.symm h.1, ih h.2]

theorem Split_append_sep {d : Byte} (body rest : GoString) (h : d ∉ body) :
    Split (body ++ d :: rest) d = body :: Split rest d := by
  induction body with
  | nil => simp [Split]
  | cons b bs ih =>
    simp only [List.mem_cons, not_or] at h
    simp only [List.cons_append]
    conv_lhs => unfold Split
    simp [Ne.symm h.1, ih h.2]

theorem terminatedLines_of_not_mem {c : GoString} (h : newline ∉ c) :
    terminatedLines c = [] := by
  simp [terminatedLines, Split_of_not_mem h]

theorem terminatedLines_append_sep (body rest : GoString) (h : newline ∉ body) :
    terminatedLines (body ++ newline :: rest) = (body ++ [newline]) :: terminatedLines rest := by
  simp [terminatedLines, Split_append_sep body rest h,
    List.dropLast_cons_of_ne_nil (Split_ne_nil rest newline)]

theorem lastField_of_not_mem {c : GoString} (h : newline ∉ c) : lastField c = c := by
  simp [lastField, Split_of_not_mem h]

theorem lastField_append_sep (body rest : GoString) (h : newline ∉ body) :
    lastField (body ++ newline :: rest) = lastField rest := by
  have hne := Split_ne_nil rest newline
  simp only [lastField, Split_append_sep body rest h]
  cases hs : Split rest newline with
  | nil => exact absurd hs hne
  | cons a l => simp [List.getLastD]

/-- The loop of `OneShot`, given more fuel than there are bytes left, sends
the terminated lines of what is left and returns what the final error asks
for. -/
theorem OneShot_loop_eq (logfile : GoString) (fuel : Nat) (r : Reader)
    (h : r.rest.length < fuel) :
    OneShot.loop logfile fuel r =
      some ((terminatedLines r.rest).map Event.linesSend, retOf logfile r.fin) := by
  induction fuel generalizing r with
  | zero => omega
  | succ fuel ih =>
    obtain ⟨rest, fin⟩ := r
    simp only at h
    unfold OneShot.loop
    cases hc : cutAfter newline rest with
    | none =>
      have hn := cutAfter_eq_none hc
      cases fin <;> simp [Reader.ReadString, hc, terminatedLines_of_not_mem hn, retOf]
    | some lr =>
      obtain ⟨line, rest1⟩ := lr
      obtain ⟨body, hl, hn, hs⟩ := cutAfter_eq_some hc
      have hlen : rest1.length < fuel := by
        have := congrArg List.length hs
        simp at this
        omega
      have := ih ⟨rest1, fin⟩ hlen
      simp only at this
      subst hl
      simp only [Reader.ReadString, hc, this]
      simp [hs, terminatedLines_append_sep body rest1 hn]

/-- The result of `OneShot` on a file that opens. -/
theorem OneShot_ok_eq (logfile : GoString) (l : File) :
    OneShot logfile (Except.ok l) =
      some (Event.fileOpen logfile :: (terminatedLines l.data).map Event.linesSend
              ++ [Event.fileClose logfile, Event.stopSend true], retOf logfile l.fin) := by
  have := OneShot_loop_eq logfile (l.data.length + 1) (NewReader l) (by simp [NewReader])
  simp [OneShot, NewReader] at this ⊢
  simp [this]

theorem linesSent_append (a b : List Event) : linesSent (a ++ b) = linesSent a ++ linesSent b := by
  induction a with
  | nil => simp [linesSent]
  | cons e es ih => cases e <;> simp [linesSent, ih]

theorem linesSent_map (ls : List GoString) : linesSent (ls.map Event.linesSend) = ls := by
  induction ls with
  | nil => simp [linesSent]
  | cons a l ih => simp [linesSent, ih]

theorem stopsSent_append (a b : List Event) : stopsSent (a ++ b) = stopsSent a ++ stopsSent b := by
  induction a with
  | nil => simp [stopsSent]
  | cons e es ih => cases e <;> simp [stopsSent, ih]

theorem stopsSent_map (ls : List GoString) : stopsSent (ls.map Event.linesSend) = [] := by
  induction ls with
  | nil => simp [stopsSent]
  | cons a l ih => simp [stopsSent, ih]

/-- Induction over a content cut at its separators. -/
theorem sep_induction (d : Byte) {P : GoString → Prop} (base : ∀ c, d ∉ c → P c)
    (step : ∀ body rest, d ∉ body → P rest → P (body ++ d :: rest)) (c : GoString) : P c := by
  generalize hn : c.length = n
  induction n using Nat.strong_induction_on generalizing c with
  | _ n ih =>
    cases hc : cutAfter d c with
    | none => exact base c (cutAfter_eq_none hc)
    | some lr =>
      obtain ⟨line, rest⟩ := lr
      obtain ⟨body, _, hb, hs⟩ := cutAfter_eq_some hc
      subst hs
      refine step body rest hb (ih rest.length ?_ rest rfl)
      rw [← hn]
      simp
      omega

theorem Split_field_not_mem (d : Byte) (c : GoString) : ∀ f ∈ Split c d, d ∉ f := by
  induction c using sep_induction d with
  | base c h => simp [Split_of_not_mem h, h]
  | step body rest hb ih =>
    rw [Split_append_sep body rest hb]
    intro f hf
    rcases List.mem_cons.mp hf with h | h
    · exact h ▸ hb
    · exact ih f h

theorem Split_intercalate (d : Byte) (c : GoString) : [d].intercalate (Split c d) = c := by
  induction c using sep_induction d with
  | base c h => simp [Split_of_not_mem h, List.intercalate]
  | step body rest hb ih =>
    rw [Split_append_sep body rest hb]
    cases hs : Split rest d with
    | nil => exact absurd hs (Split_ne_nil rest d)
    | cons a l =>
      rw [hs] at ih
      simp only [List.intercalate, List.intersperse, List.flatten] at ih ⊢
      simp [ih]

theorem terminatedLines_shape (c : GoString) :
    ∀ s ∈ terminatedLines c, ∃ body, s = body ++ [newline] ∧ newline ∉ body := by
  intro s hs
  simp only [terminatedLines, List.mem_map] at hs
  obtain ⟨f, hf, rfl⟩ := hs
  exact ⟨f, rfl, Split_field_not_mem newline c f (List.dropLast_subset _ hf)⟩

theorem terminatedLines_join (c : GoString) : (terminatedLines c).flatten ++ lastField c = c := by
  induction c using sep_induction newline with
  | base c h => simp [terminatedLines_of_not_mem h, lastField_of_not_mem h]
  | step body rest hb ih =>
    rw [terminatedLines_append_sep body rest hb, lastField_append_sep body rest hb]
    simp only [List.flatten_cons, List.append_assoc, ih]
    simp

theorem lastField_not_mem (c : GoString) : newline ∉ lastField c := by
  induction c using sep_induction newline with
  | base c h => simpa [lastField_of_not_mem h] using h
  | step body rest hb ih => rwa [lastField_append_sep body rest hb]

theorem terminatedLines_join_getLast (c : GoString) :
    (terminatedLines c).flatten = [] ∨ (terminatedLines c).flatten.getLast? = some newline := by
  induction c using sep_induction newline with
  | base c h => simp [terminatedLines_of_not_mem h]
  | step body rest hb ih =>
    right
    rw [terminatedLines_append_sep body rest hb]
    simp only [List.flatten_cons]
    rcases ih with h | h
    · simp [h]
    · rw [List.getLast?_append, h]
      simp

theorem lastField_not_mem_terminatedLines (c : GoString) : lastField c ∉ terminatedLines c := by
  intro h
  obtain ⟨body, hb, _⟩ := terminatedLines_shape c _ h
  have := lastField_not_mem c
  rw [hb] at this
  simp at this

/-- No prefix of a content that ends with the terminator is longer than the
terminated lines taken together. -/
theorem terminatedLines_join_longest (c q : GoString) (hq : q <+: c)
    (hl : q.getLast? = some newline) : q.length ≤ (terminatedLines c).flatten.length := by
  have hj : (terminatedLines c).flatten <+: c := ⟨lastField c, terminatedLines_join c⟩
  rcases List.prefix_or_prefix_of_prefix hq hj with h | h
  · exact h.length_le
  · obtain ⟨u, hu⟩ := h
    have hut : u <+: lastField c := by
      have h1 : (terminatedLines c).flatten ++ u <+: (terminatedLines c).flatten ++ lastField c := by
        rw [hu, terminatedLines_join c]
        exact hq
      exact (List.prefix_append_right_inj _).mp h1
    cases u with
    | nil => simp [← hu]
    | cons a l =>
      exfalso
      rw [← hu, List.getLast?_append] at hl
      have hmem : newline ∈ a :: l := by
        have : (a :: l).getLast? = some newline := by
          cases hg : (a :: l).getLast? with
          | none => simp at hg
          | some x => simpa [hg] using hl
        exact List.mem_of_getLast?_eq_some this
      exact lastField_not_mem c (hut.subset hmem)

theorem lastField_ne_nil {c : GoString} (hc : c ≠ []) (hl : c.getLast? ≠ some newline) :
    lastField c ≠ [] := by
  intro h
  have hj := terminatedLines_join c
  rw [h, List.append_nil] at hj
  rcases terminatedLines_join_getLast c with h1 | h1
  · exact hc (hj ▸ h1)
  · exact hl (hj ▸ h1)

/-- The strings sent in the trace of a `OneShot` that opened its file. -/
theorem linesSent_oneShot (logfile : GoString) (ls : List GoString) :
    linesSent (Event.fileOpen logfile :: ls.map Event.linesSend
      ++ [Event.fileClose logfile, Event.stopSend true]) = ls := by
  simp [linesSent, linesSent_append, linesSent_map]

/-! ## OneShot: what is sent on the channels -/

/-- C1, as stated, fails: on the content `"a\n"`, read to end-of-file, the
first string `OneShot` sends is `"a\n"`, the line with its terminator, and
not `"a"`, the first field of the content split on `'\n'`. -/
theorem OneShot_sends_terminator_counterexample :
    OneShot [120] (Except.ok ⟨[97, 10], ReadErr.EOF⟩) =
        some ([Event.fileOpen [120], Event.linesSend [97, 10], Event.fileClose [120],
          Event.stopSend true], none) ∧
      (Split [97, 10] newline)[0]? = some [97] ∧
      (linesSent [Event.fileOpen [120], Event.linesSend [97, 10], Event.fileClose [120],
          Event.stopSend true])[0]? ≠ (Split [97, 10] newline)[0]? := by
  decide

/-- C1, amended: on a file read to end-of-file without a read error `OneShot`
returns nil and sends, in file order and each once, the fields of the content
split on `'\n'` except the last field (the bytes after the last `'\n'`),
each field with its terminator put back: the `i`-th string sent is the `i`-th
field followed by `'\n'`. -/
theorem OneShot_sends_terminated_lines (logfile c : GoString) :
    ∃ tr, OneShot logfile (Except.ok ⟨c, ReadErr.EOF⟩) = some (tr, none) ∧
      linesSent tr = ((Split c newline).dropLast).map (fun f => f ++ [newline]) ∧
      (linesSent tr).length + 1 = (Split c newline).length ∧
      ∀ i, i < (linesSent tr).length →
        ∃ f, (Split c newline)[i]? = some f ∧ (linesSent tr)[i]? = some (f ++ [newline]) := by
  refine ⟨_, OneShot_ok_eq logfile ⟨c, ReadErr.EOF⟩, ?_⟩
  have hpos := List.length_pos.mpr (Split_ne_nil c newline)
  simp only [linesSent_oneShot, terminatedLines, List.length_map, List.length_dropLast]
  refine ⟨trivial, by omega, ?_⟩
  intro i hi
  have hlt : i < (Split c newline).length := by omega
  have hd : i < (Split c newline).dropLast.length := by simpa using hi
  refine ⟨(Split c newline)[i], by simp [hlt], ?_⟩
  rw [List.getElem?_map, List.getElem?_eq_getElem hd, List.getElem_dropLast]
  rfl

/-- An instance of `OneShot_sends_terminated_lines`: the content
`"a\nb\nc"`. -/
theorem OneShot_sends_terminated_lines_witness :
    ∃ tr, OneShot [120] (Except.ok ⟨[97, 10, 98, 10, 99], ReadErr.EOF⟩) = some (tr, none) ∧
      linesSent tr =
        ((Split [97, 10, 98, 10, 99] newline).dropLast).map (fun f => f ++ [newline]) ∧
      (linesSent tr).length + 1 = (Split [97, 10, 98, 10, 99] newline).length ∧
      ∀ i, i < (linesSent tr).length →
        ∃ f, (Split [97, 10, 98, 10, 99] newline)[i]? = some f ∧
          (linesSent tr)[i]? = some (f ++ [newline]) :=
  OneShot_sends_terminated_lines [120] [97, 10, 98, 10, 99]

/-- C2, as stated, fails: the content `"a\nb"` is non-empty and does not end
with `'\n'`, and `OneShot` sends `"a\n"` only; the final unterminated line
`"b"` is sent zero times, not once. -/
theorem OneShot_drops_unterminated_counterexample :
    OneShot [120] (Except.ok ⟨[97, 10, 98], ReadErr.EOF⟩) =
        some ([Event.fileOpen [120], Event.linesSend [97, 10], Event.fileClose [120],
          Event.stopSend true], none) ∧
      lastField [97, 10, 98] = [98] ∧
      ¬ (linesSent [Event.fileOpen [120], Event.linesSend [97, 10], Event.fileClose [120],
          Event.stopSend true]).count (lastField [97, 10, 98]) = 1 := by
  decide

/-- C2, amended: for a file whose content is non-empty and does not end with
`'\n'`, read to end-of-file, the final unterminated line (the non-empty bytes
after the last `'\n'`, or the whole content when it has no `'\n'`) is sent
zero times; what is sent is the terminated lines before it, which followed by
the final line make up the content. -/
theorem OneShot_drops_unterminated (logfile c : GoString) (hc : c ≠ [])
    (hl : c.getLast? ≠ some newline) :
    ∃ tr, OneShot logfile (Except.ok ⟨c, ReadErr.EOF⟩) = some (tr, none) ∧
      lastField c ≠ [] ∧
      (linesSent tr).count (lastField c) = 0 ∧
      (linesSent tr).flatten ++ lastField c = c := by
  refine ⟨_, OneShot_ok_eq logfile ⟨c, ReadErr.EOF⟩, lastField_ne_nil hc hl, ?_, ?_⟩
  · rw [linesSent_oneShot]
    exact List.count_eq_zero.mpr (lastField_not_mem_terminatedLines c)
  · rw [linesSent_oneShot]
    exact terminatedLines_join c

/-- An instance of `OneShot_drops_unterminated`: the content `"a\nb"`. -/
theorem OneShot_drops_unterminated_witness :
    ([97, 10, 98] : GoString) ≠ [] ∧ ([97, 10, 98] : GoString).getLast? ≠ some newline ∧
    ∃ tr, OneShot [120] (Except.ok ⟨[97, 10, 98], ReadErr.EOF⟩) = some (tr, none) ∧
      lastField [97, 10, 98] ≠ [] ∧
      (linesSent tr).count (lastField [97, 10, 98]) = 0 ∧
      (linesSent tr).flatten ++ lastField [97, 10, 98] = [97, 10, 98] :=
  ⟨by decide, by decide,
    OneShot_drops_unterminated [120] [97, 10, 98] (by decide) (by decide)⟩

/-- C3: however `OneShot` returns (the open fails, the reads end with
end-of-file, the reads end with another error), it returns, and exactly one
value is sent on the stop channel, the value `true`, as the last event of the
call: after every send on the lines channel. -/
theorem OneShot_signals_once (logfile : GoString) (opened : Except GoString File) :
    ∃ tr ret pre, OneShot logfile opened = some (tr, ret) ∧
      stopsSent tr = [true] ∧
      tr = pre ++ [Event.stopSend true] ∧
      stopsSent pre = [] ∧
      linesSent pre = linesSent tr := by
  cases opened with
  | error err =>
    exact ⟨_, _, [Event.fileOpen logfile], rfl, by simp [stopsSent], by simp,
      by simp [stopsSent], by simp [linesSent]⟩
  | ok l =>
    refine ⟨_, _, Event.fileOpen logfile :: (terminatedLines l.data).map Event.linesSend
      ++ [Event.fileClose logfile], OneShot_ok_eq logfile l, ?_, by simp, ?_, ?_⟩
    · simp [stopsSent, stopsSent_append, stopsSent_map]
    · simp [stopsSent, stopsSent_append, stopsSent_map]
    · simp [linesSent, linesSent_append, linesSent_map]

/-- C10: on a content `c` read to end-of-file without a read error, every
string `OneShot` sends ends with `'\n'` and has no other `'\n'`; the strings
sent, concatenated in order, are the longest prefix of `c` that ends with
`'\n'` (nothing is sent when `c` has no `'\n'`); the bytes after the last
`'\n'` are not sent. -/
theorem OneShot_sends_longest_terminated_prefix (logfile c : GoString) :
    ∃ tr, OneShot logfile (Except.ok ⟨c, ReadErr.EOF⟩) = some (tr, none) ∧
      (∀ s ∈ linesSent tr, ∃ body, s = body ++ [newline] ∧ newline ∉ body) ∧
      (linesSent tr).flatten <+: c ∧
      ((linesSent tr).flatten = [] ∨ (linesSent tr).flatten.getLast? = some newline) ∧
      (∀ q, q <+: c → q.getLast? = some newline →
        q.length ≤ (linesSent tr).flatten.length) ∧
      (newline ∉ c → linesSent tr = []) ∧
      (linesSent tr).flatten ++ lastField c = c ∧
      newline ∉ lastField c ∧
      lastField c ∉ linesSent tr := by
  refine ⟨_, OneShot_ok_eq logfile ⟨c, ReadErr.EOF⟩, ?_⟩
  simp only [linesSent_oneShot]
  exact ⟨terminatedLines_shape c, ⟨lastField c, terminatedLines_join c⟩,
    terminatedLines_join_getLast c, fun q hq hl => terminatedLines_join_longest c q hq hl,
    fun h => terminatedLines_of_not_mem h, terminatedLines_join c, lastField_not_mem c,
    lastField_not_mem_terminatedLines c⟩

/-- An instance of `OneShot_sends_longest_terminated_prefix`: the content
`"a\nb\nc"`. -/
theorem OneShot_sends_longest_terminated_prefix_witness :
    ∃ tr, OneShot [120] (Except.ok ⟨[97, 10, 98, 10, 99], ReadErr.EOF⟩) = some (tr, none) ∧
      (linesSent tr).flatten = [97, 10, 98, 10] ∧ lastField [97, 10, 98, 10, 99] = [99] := by
  obtain ⟨tr, h, _, _, _, _, _, hj, _, _⟩ :=
    OneShot_sends_longest_terminated_prefix [120] [97, 10, 98, 10, 99]
  have hf : lastField [97, 10, 98, 10, 99] = [99] := by decide
  refine ⟨tr, h, ?_, hf⟩
  rw [hf] at hj
  have he : ([97, 10, 98, 10, 99] : GoString) = [97, 10, 98, 10] ++ [99] := by decide
  exact List.append_cancel_right (hj.trans he)

/-! ## Close -/

theorem Close_of_closeOnce (st : State) (h : st.m.closeOnce = true) :
    mtail.Close st = Except.ok st := by
  simp [mtail.Close, h]

theorem closeTimes_of_closeOnce (st : State) (h : st.m.closeOnce = true) (k : Nat) :
    closeTimes k st = Except.ok st := by
  induction k with
  | zero => rfl
  | succ k ih => simp [closeTimes, Close_of_closeOnce st h, ih]

/-- C4: on an mtail built by `NewMtail`, whatever happened before, the first
`Close` closes the lines channel; `n + 1` calls of `Close` leave the state of
a single call, for every `n`; the channel is closed once, and every later
call leaves the state as it is, without a further `close(m.lines)` and
without a panic. -/
theorem Close_idempotent (tr : List Event) (n : Nat) :
    ∃ st1, mtail.Close ⟨NewMtail, tr⟩ = Except.ok st1 ∧
      st1.m.lines.closed = true ∧
      st1.trace = tr ++ [Event.logPrint "Shutdown requested.", Event.linesClose] ∧
      closeCount st1.trace = closeCount tr + 1 ∧
      closeTimes (n + 1) ⟨NewMtail, tr⟩ = Except.ok st1 ∧
      mtail.Close st1 = Except.ok st1 ∧
      ∀ k, closeTimes k st1 = Except.ok st1 := by
  have h1 : mtail.Close ⟨NewMtail, tr⟩ = Except.ok
      ⟨{ console := [], lines := ⟨0, true⟩, stop := ⟨1, false⟩, closeOnce := true },
        tr ++ [Event.logPrint "Shutdown requested.", Event.linesClose]⟩ := by
    simp [mtail.Close, mtail.close, NewMtail]
  refine ⟨_, h1, rfl, rfl, ?_, ?_, ?_, ?_⟩
  · simp [closeCount, List.count_append]
  · simp only [closeTimes, h1]
    exact closeTimes_of_closeOnce _ rfl n
  · exact Close_of_closeOnce _ rfl
  · exact closeTimes_of_closeOnce _ rfl

/-! ## Write -/

theorem DecodeRune_width_pos (p : List Byte) (h : p ≠ []) : 1 ≤ (DecodeRune p).2 := by
  cases p with
  | nil => exact absurd rfl h
  | cons p0 t =>
    unfold DecodeRune
    simp only
    split_ifs <;> try simp
    all_goals (split <;> try simp)
    all_goals (split_ifs <;> try simp)
    all_goals (split <;> try simp)
    all_goals (split_ifs <;> try simp)
    all_goals (split <;> try simp)
    all_goals (split_ifs <;> try simp)

/-- The decoding loop of `Write` ends when the fuel covers the bytes left. -/
theorem Write_loop_total (p : List Byte) (fuel i : Nat) (s : GoString)
    (h : p.length ≤ i + fuel) : ∃ s1, Write.loop p fuel i s = some s1 := by
  induction fuel generalizing i s with
  | zero =>
    have : ¬ i < p.length := by omega
    exact ⟨s, by simp [Write.loop, this]⟩
  | succ fuel ih =>
    unfold Write.loop
    by_cases hi : i < p.length
    · simp only [hi, if_true]
      have hne : p.drop i ≠ [] := by
        intro h0
        have := congrArg List.length h0
        simp at this
        omega
      have := DecodeRune_width_pos (p.drop i) hne
      exact ih _ _ (by omega)
    · exact ⟨s, by simp [hi]⟩

/-- The loop of `Write` ends for every byte slice and `Write` returns a nil
error. -/
theorem Write_total (m : mtail) (p : List Byte) :
    ∃ s, m.Write p = some ({ m with console := m.console ++ [s] }, s.length, none) := by
  obtain ⟨s, hs⟩ := Write_loop_total p p.length 0 [] (by omega)
  exact ⟨s, by simp [mtail.Write, hs]⟩

theorem and_3F (x : Nat) : x &&& 0x3F = x % 64 := Nat.and_pow_two_sub_one_eq_mod x 6
theorem and_1F (x : Nat) : x &&& 0x1F = x % 32 := Nat.and_pow_two_sub_one_eq_mod x 5
theorem and_0F (x : Nat) : x &&& 0x0F = x % 16 := Nat.and_pow_two_sub_one_eq_mod x 4
theorem and_07 (x : Nat) : x &&& 0x07 = x % 8 := Nat.and_pow_two_sub_one_eq_mod x 3

theorem shl_or (a b k : Nat) (hb : b < 2 ^ k) : a <<< k ||| b = a * 2 ^ k + b := by
  rw [Nat.shiftLeft_eq, Nat.mul_comm, Nat.mul_add_lt_is_or hb]

theorem shl_or6 (a b : Nat) (hb : b < 64) : a <<< 6 ||| b = a * 64 + b :=
  shl_or a b 6 hb

theorem shl_or12 (a b : Nat) (hb : b < 4096) : a <<< 12 ||| b = a * 4096 + b :=
  shl_or a b 12 hb

theorem shl_or18 (a b : Nat) (hb : b < 262144) : a <<< 18 ||| b = a * 262144 + b :=
  shl_or a b 18 hb

theorem shl6 (a : Nat) : a <<< 6 = a * 64 := Nat.shiftLeft_eq a 6

theorem shl12 (a : Nat) : a <<< 12 = a * 4096 := Nat.shiftLeft_eq a 12

theorem rune2 (a b : Nat) : (a &&& 0x1F) <<< 6 ||| (b &&& 0x3F) = a % 32 * 64 + b % 64 := by
  rw [and_1F, and_3F, shl_or6 _ _ (Nat.mod_lt _ (by decide))]

theorem rune3 (a b c : Nat) :
    (a &&& 0x0F) <<< 12 ||| (b &&& 0x3F) <<< 6 ||| (c &&& 0x3F)
      = a % 16 * 4096 + b % 64 * 64 + c % 64 := by
  rw [and_0F, and_3F, and_3F]
  have hb := Nat.mod_lt b (show 64 > 0 by decide)
  have hc := Nat.mod_lt c (show 64 > 0 by decide)
  have h1 : (a % 16) <<< 12 ||| (b % 64) <<< 6 = (a % 16 * 64 + b % 64) <<< 6 := by
    rw [shl6 (b % 64), shl_or12 _ _ (by omega), shl6]
    omega
  rw [h1, shl_or6 _ _ hc]
  omega

theorem rune4 (a b c d : Nat) :
    (a &&& 0x07) <<< 18 ||| (b &&& 0x3F) <<< 12 ||| (c &&& 0x3F) <<< 6 ||| (d &&& 0x3F)
      = a % 8 * 262144 + b % 64 * 4096 + c % 64 * 64 + d % 64 := by
  rw [and_07, and_3F, and_3F, and_3F]
  have hb := Nat.mod_lt b (show 64 > 0 by decide)
  have hc := Nat.mod_lt c (show 64 > 0 by decide)
  have hd := Nat.mod_lt d (show 64 > 0 by decide)
  have h1 : (a % 8) <<< 18 ||| (b % 64) <<< 12 = (a % 8 * 64 + b % 64) <<< 12 := by
    rw [shl12 (b % 64), shl_or18 _ _ (by omega), shl12]
    omega
  have h2 : (a % 8 * 64 + b % 64) <<< 12 ||| (c % 64) <<< 6
      = ((a % 8 * 64 + b % 64) * 64 + c % 64) <<< 6 := by
    rw [shl6 (c % 64), shl_or12 _ _ (by omega), shl6]
    omega
  rw [h1, h2, shl_or6 _ _ hd]
  omega



theorem first_cases (b : Byte) :
    first b = 0xF0 ∨ first b = 0xF1 ∨
    (first b = 0x02 ∧ 0xC2 ≤ b.val ∧ b.val < 0xE0) ∨
    (first b = 0x13 ∧ b.val = 0xE0) ∨
    (first b = 0x03 ∧ 0xE1 ≤ b.val ∧ b.val < 0xF0) ∨
    (first b = 0x23 ∧ b.val = 0xED) ∨
    (first b = 0x34 ∧ b.val = 0xF0) ∨
    (first b = 0x04 ∧ 0xF1 ≤ b.val ∧ b.val < 0xF4) ∨
    (first b = 0x44 ∧ b.val = 0xF4) := by
  unfold first
  split_ifs <;> simp <;> omega

theorem runeString_length_pos (r : Nat) : 1 ≤ (runeString r).length := by
  unfold runeString
  split_ifs <;> simp [encode3]

theorem runeString_length_two (r : Nat) (h : 0x7F < r) : 2 ≤ (runeString r).length := by
  unfold runeString
  split_ifs <;> simp [encode3]
  omega

theorem runeString_length_three (r : Nat) (h : 0x7FF < r) : 3 ≤ (runeString r).length := by
  unfold runeString
  split_ifs <;> simp [encode3] <;> omega

theorem runeString_length_four (r : Nat) (h : 0xFFFF < r) (h1 : r ≤ 0x10FFFF) :
    4 ≤ (runeString r).length := by
  unfold runeString
  split_ifs <;> simp [encode3] <;> omega

theorem and7_vals :
    (0x02 : Nat) &&& 7 = 2 ∧ (0x13 : Nat) &&& 7 = 3 ∧ (0x03 : Nat) &&& 7 = 3 ∧
    (0x23 : Nat) &&& 7 = 3 ∧ (0x34 : Nat) &&& 7 = 4 ∧ (0x04 : Nat) &&& 7 = 4 ∧
    (0x44 : Nat) &&& 7 = 4 := by
  decide

theorem DecodeRune_width_le (p : List Byte) :
    (DecodeRune p).2 ≤ (runeString (DecodeRune p).1).length := by
  have h1 := fun r => runeString_length_pos r
  obtain ⟨a1, a2, a3, a4, a5, a6, a7⟩ := and7_vals
  rcases p with _ | ⟨p0, _ | ⟨b1, _ | ⟨b2, _ | ⟨b3, t3⟩⟩⟩⟩
  · simp [DecodeRune]
  all_goals
    unfold DecodeRune
    rcases first_cases p0 with h | h | h | h | h | h | h | h | h
  all_goals
    first
    | (simp [h, h1]; done)
    | skip
  all_goals
    obtain ⟨h, hv⟩ := h
    simp [h, h1, acceptRanges, a1, a2, a3, a4, a5, a6, a7]
  all_goals
    split_ifs <;> simp only [] <;>
    first
    | exact h1 _
    | (rw [rune2]; exact runeString_length_two _ (by omega))
    | (rw [rune3]; exact runeString_length_three _ (by omega))
    | (rw [rune4]; exact runeString_length_four _ (by omega) (by omega))

/-- The string the loop of `Write` builds is at least as long as the bytes it
still had to decode. -/
theorem Write_loop_length (p : List Byte) (fuel i : Nat) (s s1 : GoString)
    (h : Write.loop p fuel i s = some s1) : s.length + (p.length - i) ≤ s1.length := by
  induction fuel generalizing i s with
  | zero =>
    unfold Write.loop at h
    by_cases hi : i < p.length
    · simp [hi] at h
    · simp only [hi, if_false, Option.some.injEq] at h
      subst h
      omega
  | succ fuel ih =>
    unfold Write.loop at h
    by_cases hi : i < p.length
    · simp only [hi, if_true] at h
      have h2 := ih _ _ h
      have h3 := DecodeRune_width_le (p.drop i)
      simp only [List.length_append] at h2
      omega
    · simp only [hi, if_false, Option.some.injEq] at h
      subst h
      omega

/-- The count `Write` returns is never below the length of the slice. -/
theorem Write_count_ge_len (m : mtail) (p : List Byte) :
    ∃ m1 n, m.Write p = some (m1, n, none) ∧ p.length ≤ n := by
  obtain ⟨s, hs⟩ := Write_loop_total p p.length 0 [] (by omega)
  have := Write_loop_length p p.length 0 [] s hs
  exact ⟨{ m with console := m.console ++ [s] }, s.length, by simp [mtail.Write, hs],
    by simpa using this⟩

/-- C9 fails on the code: for the slice of the one byte `0xFF`, which is not
valid UTF-8, the loop ends and the error is nil, but `Write` returns the
length of the string it built, 3 (the encoding of U+FFFD), which is more than
the length 1 of the slice. -/
theorem Write_count_exceeds_len :
    NewMtail.Write [0xFF] =
        some ({ NewMtail with console := [[0xEF, 0xBF, 0xBD]] }, 3, none) ∧
      ¬ (3 ≤ ([0xFF] : List Byte).length) := by
  decide

/-! ## Serve -/

theorem OneShot_eq (logfile : GoString) (opened : Except GoString File) :
    OneShot logfile opened = some (oneShotTrace logfile opened, oneShotRet logfile opened) := by
  cases opened with
  | error err => rfl
  | ok l => exact OneShot_ok_eq logfile l

theorem ingested_append (a b : List Event) : ingested (a ++ b) = ingested a ++ ingested b := by
  induction a with
  | nil => simp [ingested]
  | cons e es ih => cases e <;> simp [ingested, ih]

theorem ingested_map_linesSend (ls : List GoString) :
    ingested (ls.map Event.linesSend) = [] := by
  induction ls with
  | nil => simp [ingested]
  | cons a l ih => simp [ingested, ih]

theorem ingested_map_tail (ps : List GoString) : ingested (ps.map Event.tail) = ps := by
  induction ps with
  | nil => simp [ingested]
  | cons a l ih => simp [ingested, ih]

theorem ingested_oneShotTrace (logfile : GoString) (opened : Except GoString File) :
    ingested (oneShotTrace logfile opened) = [logfile] := by
  cases opened with
  | error err => simp [oneShotTrace, ingested]
  | ok l => simp [oneShotTrace, ingested, ingested_append, ingested_map_linesSend]

theorem snapshot_not_mem_oneShotTrace (logfile : GoString) (opened : Except GoString File) :
    Event.stdoutWrite ∉ oneShotTrace logfile opened ∧
      Event.writeMetrics ∉ oneShotTrace logfile opened := by
  cases opened with
  | error err => simp [oneShotTrace]
  | ok l => simp [oneShotTrace]

theorem Serve_pathnames_foldl (fields acc : List GoString) :
    fields.foldl
        (fun pathnames pathname => if pathname ≠ [] then pathnames ++ [pathname] else pathnames)
        acc = acc ++ fields.filter (fun f => f ≠ []) := by
  induction fields generalizing acc with
  | nil => simp
  | cons f fs ih =>
    rw [List.foldl_cons, ih, List.filter_cons]
    by_cases hf : f = []
    · simp [hf]
    · simp [hf]

/-- The pathnames `Serve` collects are the non-empty fields of `-logs`, in
their order. -/
theorem Serve_pathnames_eq (logs : GoString) :
    Serve.pathnames logs = (Split logs comma).filter (fun f => f ≠ []) := by
  rw [Serve.pathnames, Serve_pathnames_foldl, List.nil_append]

/-- The one-shot loop of `Serve`: it ends; it opens a beginning of the
pathnames, all of them when no call of `OneShot` fails; it fails exactly when
one of the calls would; and it writes no snapshot. -/
theorem Serve_oneShots_spec (env : Env) (ps : List GoString) (k : Nat) :
    ∃ es r, Serve.oneShots env k ps = some (es, r) ∧
      ingested es <+: ps ∧
      (r = none → ingested es = ps) ∧
      (r = none ↔ ∀ j p, ps[j]? = some p → oneShotRet p (env.openFile (k + j) p) = none) ∧
      Event.stdoutWrite ∉ es ∧ Event.writeMetrics ∉ es := by
  induction ps generalizing k with
  | nil => exact ⟨[], none, rfl, by simp [ingested], by simp [ingested], by simp, by simp, by simp⟩
  | cons p rest ih =>
    obtain ⟨es1, r1, h1, hpre, hall, hiff, hs1, hs2⟩ := ih (k + 1)
    have hsn := snapshot_not_mem_oneShotTrace p (env.openFile k p)
    unfold Serve.oneShots
    rw [OneShot_eq]
    cases hr : oneShotRet p (env.openFile k p) with
    | some err =>
      refine ⟨_, _, rfl, ?_, by simp, ?_, hsn.1, hsn.2⟩
      · rw [ingested_oneShotTrace]
        simp
      · constructor
        · intro h
          simp at h
        · intro h
          have := h 0 p (by simp)
          simp [hr] at this
    | none =>
      simp only [h1]
      refine ⟨_, _, rfl, ?_, ?_, ?_, ?_, ?_⟩
      · rw [ingested_append, ingested_oneShotTrace]
        simpa using hpre
      · intro h
        rw [ingested_append, ingested_oneShotTrace, hall h]
        rfl
      · rw [hiff]
        constructor
        · intro h j q hj
          cases j with
          | zero =>
            simp at hj
            subst hj
            simpa using hr
          | succ j =>
            have := h j q (by simpa using hj)
            rwa [Nat.add_assoc, Nat.add_comm 1 j] at this
        · intro h j q hj
          have := h (j + 1) q (by simpa using hj)
          rwa [Nat.add_assoc, Nat.add_comm 1 j]
      · simp [hsn.1, hs1]
      · simp [hsn.2, hs2]

/-- C6, as stated, fails: with `-compile_only -progs p -logs x` and a failure
count of 256 from `LoadProgs`, `Serve` calls `os.Exit(256)` and the process
ends with status 0, the low eight bits of 256: the status is neither the
failure count nor zero only when no program failed. -/
theorem Serve_compile_only_counterexample :
    main ⟨[], [120], [112], false, false, true⟩
        ⟨none, false, 256, fun _ _ => Except.error [], none, none, false, none⟩ =
      some ([Event.loadProgs [112]], some 0) ∧
      Serve ⟨[], [120], [112], false, false, true⟩
        ⟨none, false, 256, fun _ _ => Except.error [], none, none, false, none⟩ =
      some ([Event.loadProgs [112]], Outcome.exit 256) ∧
      exitStatus (Outcome.exit 256) ≠ some 256 ∧
      ¬ (exitStatus (Outcome.exit 256) = some 0 ↔ (256 : Int) = 0) := by
  decide

/-- C6, amended: with `compile_only` or `dump_bytecode` set and `-progs` and
`-logs` non-empty, `Serve` ends without an event that starts the engine, a
one-shot read or tailing; and once the watcher and the loader exist, it calls
`LoadProgs` and then `os.Exit` with the failure count `LoadProgs` returned, so
that the status of the process is that count modulo 256: for a count from 0
to 255 the status is the count, and it is zero exactly when the count is
zero. -/
theorem Serve_compile_only (fl : Flags) (env : Env)
    (hc : fl.compile_only = true ∨ fl.dump_bytecode = true)
    (hp : fl.progs ≠ []) (hl : fl.logs ≠ []) :
    ∃ tr out, Serve fl env = some (tr, out) ∧
      (∀ e ∈ tr, e.isStart = false) ∧
      (env.watcherErr = none → env.loaderNil = false →
        tr = [Event.loadProgs fl.progs] ∧ out = Outcome.exit env.loadErrors ∧
        exitStatus out = some (env.loadErrors % 256) ∧
        (0 ≤ env.loadErrors → env.loadErrors < 256 →
          exitStatus out = some env.loadErrors ∧
          (exitStatus out = some 0 ↔ env.loadErrors = 0))) := by
  have hor : (fl.compile_only || fl.dump_bytecode) = true := by
    rcases hc with h | h <;> simp [h]
  unfold Serve
  simp only [hp, hl, if_false]
  cases hw : env.watcherErr with
  | some err => exact ⟨_, _, rfl, by simp, by simp⟩
  | none =>
    cases hn : env.loaderNil with
    | true => exact ⟨_, _, rfl, by simp, by simp⟩
    | false =>
      simp only [hor, if_true, Bool.false_eq_true, if_false]
      refine ⟨_, _, rfl, by simp [Event.isStart], fun _ _ => ⟨rfl, rfl, rfl, ?_⟩⟩
      intro h0 h1
      have hm : env.loadErrors % 256 = env.loadErrors := Int.emod_eq_of_lt h0 h1
      simp [exitStatus, hm]

/-- An instance of `Serve_compile_only`: `-compile_only -progs p -logs x`
with two programs that fail to compile ends with status 2. -/
theorem Serve_compile_only_witness :
    ∃ tr out,
      Serve ⟨[], [120], [112], false, false, true⟩
        ⟨none, false, 2, fun _ _ => Except.error [], none, none, false, none⟩ = some (tr, out) ∧
      (∀ e ∈ tr, e.isStart = false) ∧
      tr = [Event.loadProgs [112]] ∧ out = Outcome.exit 2 ∧ exitStatus out = some 2 := by
  obtain ⟨tr, out, h, hs, hx⟩ := Serve_compile_only ⟨[], [120], [112], false, false, true⟩
    ⟨none, false, 2, fun _ _ => Except.error [], none, none, false, none⟩
    (Or.inl rfl) (by decide) (by decide)
  obtain ⟨h1, h2, _, h4⟩ := hx rfl rfl
  exact ⟨tr, out, h, hs, h1, h2, (h4 (by decide) (by decide)).1⟩

/-- C7, as stated, fails: with `-progs p -logs , -compile_only` the flag
`-logs` has no non-empty field, yet `Serve` does not end with a fatal error:
it calls `LoadProgs` and exits with the failure count, here 0. -/
theorem Serve_no_field_compile_only_counterexample :
    (Split [44] comma).filter (fun f => f ≠ []) = [] ∧
      Serve ⟨[], [44], [112], false, false, true⟩
          ⟨none, false, 0, fun _ _ => Except.error [], none, none, false, none⟩ =
        some ([Event.loadProgs [112]], Outcome.exit 0) ∧
      exitStatus (Outcome.exit 0) = some 0 := by
  decide

/-- C7, amended: `Serve` always ends or reaches `ListenAndServe`.  With `-progs`
empty, or `-logs` empty, it ends with a fatal error before anything else.
With no non-empty comma-separated field in `-logs` it never starts the
engine, a one-shot read or tailing, and it ends with a fatal error when
neither `compile_only` nor `dump_bytecode` is set.  The pathnames it ingests
are always a beginning of the non-empty comma-separated fields of `-logs`, in
their order, and all of them when `Serve` returns, reaches `ListenAndServe`,
or fails only in marshalling the snapshot. -/
theorem Serve_startup_and_pathnames (fl : Flags) (env : Env) :
    ∃ tr out, Serve fl env = some (tr, out) ∧
      (fl.progs = [] → tr = [] ∧ out = Outcome.fatal Fatal.noProgs) ∧
      (fl.progs ≠ [] → fl.logs = [] → tr = [] ∧ out = Outcome.fatal Fatal.noLogs) ∧
      ((Split fl.logs comma).filter (fun f => f ≠ []) = [] →
        (∀ e ∈ tr, e.isStart = false) ∧
        (fl.compile_only = false → fl.dump_bytecode = false → ∃ f, out = Outcome.fatal f)) ∧
      ingested tr <+: (Split fl.logs comma).filter (fun f => f ≠ []) ∧
      ((out = Outcome.returned ∨ out = Outcome.serving ∨
          (∃ err, out = Outcome.fatal (Fatal.marshal err)) ∨
          (∃ err, out = Outcome.fatal (Fatal.listen err))) →
        ingested tr = (Split fl.logs comma).filter (fun f => f ≠ [])) := by
  unfold Serve
  rw [Serve_pathnames_eq]
  generalize hP : (Split fl.logs comma).filter (fun f => f ≠ []) = P
  by_cases hp : fl.progs = []
  · simp only [hp, if_true]
    refine ⟨_, _, rfl, ?_⟩
    simp [ingested, Event.isStart]
  by_cases hl : fl.logs = []
  · simp only [hp, hl, if_true, if_false]
    refine ⟨_, _, rfl, ?_⟩
    simp [ingested, Event.isStart]
  simp only [hp, hl, if_false]
  cases hw : env.watcherErr with
  | some err => exact ⟨_, _, rfl, by simp [ingested, Event.isStart]⟩
  | none =>
  simp only
  cases hn : env.loaderNil with
  | true => exact ⟨_, _, rfl, by simp [ingested, Event.isStart]⟩
  | false =>
  simp only [Bool.false_eq_true, if_false]
  by_cases hor : (fl.compile_only || fl.dump_bytecode) = true
  · simp only [hor, if_true]
    refine ⟨_, _, rfl, by simp [hp], by simp [hl], ?_, by simp [ingested], by simp⟩
    intro _
    refine ⟨by simp [Event.isStart], ?_⟩
    intro h1 h2
    simp [h1, h2] at hor
  simp only [hor, if_false]
  by_cases hlen : P.length = 0
  · simp only [hlen, if_true]
    exact ⟨_, _, rfl, by simp [ingested, Event.isStart, hp, hl]⟩
  simp only [hlen, if_false]
  have hPne : P ≠ [] := fun h => hlen (by simp [h])
  cases hos : fl.one_shot with
  | true =>
    simp only [if_true]
    obtain ⟨es, r, h1, hpre, hall, _, _, _⟩ := Serve_oneShots_spec env P 0
    rw [h1]
    cases r with
    | some pe =>
      obtain ⟨q, err⟩ := pe
      refine ⟨_, _, rfl, by simp [hp], by simp [hl], by simp [hPne], ?_, by simp⟩
      simpa [ingested, ingested_append] using hpre
    | none =>
      have hi := hall rfl
      cases hm : env.marshalErr with
      | some err =>
        refine ⟨_, _, rfl, by simp [hp], by simp [hl], by simp [hPne], ?_, ?_⟩
        · simp [ingested, ingested_append, hi]
        · intro _
          simp [ingested, ingested_append, hi]
      | none =>
        refine ⟨_, _, rfl, by simp [hp], by simp [hl], by simp [hPne], ?_, ?_⟩
        · simp [ingested, ingested_append, hi]
        · intro _
          simp [ingested, ingested_append, hi]
  | false =>
    simp only [Bool.false_eq_true, if_false]
    unfold StartTailing
    cases htw : env.tailWatcherErr with
    | some err =>
      exact ⟨_, _, rfl, by simp [hp], by simp [hl], by simp [hPne], by simp [ingested], by simp⟩
    | none =>
      cases htn : env.tailerNil with
      | true =>
        exact ⟨_, _, rfl, by simp [hp], by simp [hl], by simp [hPne], by simp [ingested],
          by simp⟩
      | false =>
        simp only [Bool.false_eq_true, if_false]
        cases hle : env.listenErr with
        | some err =>
          refine ⟨_, _, rfl, by simp [hp], by simp [hl], by simp [hPne], ?_, ?_⟩
          · simp [ingested, ingested_append, ingested_map_tail]
          · intro _
            simp [ingested, ingested_append, ingested_map_tail]
        | none =>
          refine ⟨_, _, rfl, by simp [hp], by simp [hl], by simp [hPne], ?_, ?_⟩
          · simp [ingested, ingested_append, ingested_map_tail]
          · intro _
            simp [ingested, ingested_append, ingested_map_tail]

/-- An instance of `Serve_startup_and_pathnames`: tailing with
`-progs p -logs ,x,,y` ingests `x` and `y`. -/
theorem Serve_startup_and_pathnames_witness :
    ∃ tr, Serve ⟨[], [44, 120, 44, 44, 121], [112], false, false, false⟩
          ⟨none, false, 0, fun _ _ => Except.error [], none, none, false, none⟩ =
        some (tr, Outcome.serving) ∧
      ingested tr = [[120], [121]] := by
  obtain ⟨tr, out, h, _, _, _, _, hall⟩ := Serve_startup_and_pathnames
    ⟨[], [44, 120, 44, 44, 121], [112], false, false, false⟩
    ⟨none, false, 0, fun _ _ => Except.error [], none, none, false, none⟩
  have ho : out = Outcome.serving := by
    have h2 : Serve ⟨[], [44, 120, 44, 44, 121], [112], false, false, false⟩
        ⟨none, false, 0, fun _ _ => Except.error [], none, none, false, none⟩ =
        some ([Event.loadProgs [112], Event.engineRun, Event.interruptHandler,
          Event.tail [120], Event.tail [121], Event.setLogOutput, Event.httpHandle "/",
          Event.httpHandle "/json", Event.httpHandle "/metrics", Event.metricPush,
          Event.listenAndServe []], Outcome.serving) := by decide
    rw [h2] at h
    simp only [Option.some.injEq, Prod.mk.injEq] at h
    exact h.2.symm
  subst ho
  exact ⟨tr, h, (hall (Or.inr (Or.inl rfl))).trans (by decide)⟩

theorem Serve_pathnames_nil : Serve.pathnames [] = [] := by
  decide

/-- The one-shot branch of `Serve`, once startup is over. -/
theorem Serve_one_shot_eq (fl : Flags) (env : Env) (hos : fl.one_shot = true)
    (hco : fl.compile_only = false) (hdb : fl.dump_bytecode = false) (hp : fl.progs ≠ [])
    (hw : env.watcherErr = none) (hn : env.loaderNil = false)
    (hne : Serve.pathnames fl.logs ≠ []) :
    Serve fl env =
      match Serve.oneShots env 0 (Serve.pathnames fl.logs) with
      | none => none
      | some (es, some (pathname, err)) =>
        some ([Event.loadProgs fl.progs] ++ [Event.engineRun] ++ es,
          Outcome.fatal (Fatal.oneShot pathname err))
      | some (es, none) =>
        match env.marshalErr with
        | some err =>
          some ([Event.loadProgs fl.progs] ++ [Event.engineRun] ++ es,
            Outcome.fatal (Fatal.marshal err))
        | none =>
          some ([Event.loadProgs fl.progs] ++ [Event.engineRun] ++ es
            ++ [Event.stdoutWrite, Event.writeMetrics], Outcome.returned) := by
  have hl : fl.logs ≠ [] := by
    intro h
    rw [h, Serve_pathnames_nil] at hne
    exact hne rfl
  have hlen : ¬ (Serve.pathnames fl.logs).length = 0 := by
    intro h
    exact hne (List.length_eq_zero.mp h)
  unfold Serve
  simp only [hp, hl, hw, hn, hco, hdb, hos, hlen, if_false, if_true, Bool.false_eq_true,
    Bool.or_self]

/-- C5, as stated, fails: in one-shot mode with one log file read to
end-of-file and a failure count of 1 from `LoadProgs`, `Serve` returns and the
process ends with status 0. -/
theorem oneShot_status_counterexample :
    main ⟨[], [120], [112], true, false, false⟩
        ⟨none, false, 1, fun _ _ => Except.ok ⟨[97, 10], ReadErr.EOF⟩, none, none, false,
          none⟩ =
      some ([Event.loadProgs [112], Event.engineRun, Event.fileOpen [120],
        Event.linesSend [97, 10], Event.fileClose [120], Event.stopSend true,
        Event.stdoutWrite, Event.writeMetrics], some 0) ∧
      ¬ ((some (0 : Int) = some 0) ↔ ((1 : Int) = 0)) := by
  decide

/-- C5, amended: in one-shot mode (`one_shot` set, `compile_only` and
`dump_bytecode` unset), when startup succeeds and every configured log file
is read to end-of-file without error, the process ends, and its status does
not depend on the failure count of `LoadProgs`: it is 0 when the snapshot is
marshalled, and 1 when marshalling fails. -/
theorem oneShot_mode_status (fl : Flags) (env : Env) (hos : fl.one_shot = true)
    (hco : fl.compile_only = false) (hdb : fl.dump_bytecode = false) (hp : fl.progs ≠ [])
    (hw : env.watcherErr = none) (hn : env.loaderNil = false)
    (hne : Serve.pathnames fl.logs ≠ [])
    (hfiles : ∀ j p, (Serve.pathnames fl.logs)[j]? = some p →
      ∃ l, env.openFile j p = Except.ok l ∧ l.fin = ReadErr.EOF) :
    ∃ tr st, main fl env = some (tr, some st) ∧
      (env.marshalErr = none → st = 0) ∧
      (env.marshalErr ≠ none → st = 1) ∧
      ingested tr = Serve.pathnames fl.logs := by
  obtain ⟨es, r, h1, _, hall, hiff, _, _⟩ := Serve_oneShots_spec env (Serve.pathnames fl.logs) 0
  have hr : r = none := by
    rw [hiff]
    intro j p hj
    obtain ⟨l, hl1, hl2⟩ := hfiles j p hj
    simp [hl1, oneShotRet, hl2, retOf]
  subst hr
  have hi := hall rfl
  unfold main
  rw [Serve_one_shot_eq fl env hos hco hdb hp hw hn hne, h1]
  cases hm : env.marshalErr with
  | some err =>
    exact ⟨_, _, rfl, by simp, by simp [exitStatus], by simp [ingested, ingested_append, hi]⟩
  | none =>
    exact ⟨_, _, rfl, by simp [exitStatus], by simp, by simp [ingested, ingested_append, hi]⟩

/-- An instance of `oneShot_mode_status`: one log file, a failure count of 1. -/
theorem oneShot_mode_status_witness :
    ∃ tr st, main ⟨[], [120], [112], true, false, false⟩
        ⟨none, false, 1, fun _ _ => Except.ok ⟨[97, 10], ReadErr.EOF⟩, none, none, false,
          none⟩ = some (tr, some st) ∧ st = 0 := by
  obtain ⟨tr, st, h, h0, _, _⟩ := oneShot_mode_status
    ⟨[], [120], [112], true, false, false⟩
    ⟨none, false, 1, fun _ _ => Except.ok ⟨[97, 10], ReadErr.EOF⟩, none, none, false, none⟩
    rfl rfl rfl (by decide) rfl rfl (by decide) (fun j p _ => ⟨_, rfl, rfl⟩)
  exact ⟨tr, st, h, h0 rfl⟩

/-- C8: `OneShot` returns, and it returns a non-nil error if and only if
the open fails or the reads end with an error other than end-of-file; it
returns nil when the reads end with end-of-file; when the open fails nothing is sent
on the lines channel.  In the one-shot mode of `Serve`, when `OneShot` fails
for one of the configured paths, `Serve` ends with a fatal error and neither
the snapshot nor the metrics are written; once startup has succeeded that
fatal error is the one of the one-shot loop. -/
theorem OneShot_error_iff_and_fatal :
    (∀ (logfile : GoString) (opened : Except GoString File),
      ∃ tr ret, OneShot logfile opened = some (tr, ret) ∧
        (ret ≠ none ↔ ((∃ err, opened = Except.error err) ∨
          ∃ l msg, opened = Except.ok l ∧ l.fin = ReadErr.other msg)) ∧
        ((∃ l, opened = Except.ok l ∧ l.fin = ReadErr.EOF) → ret = none) ∧
        ((∃ err, opened = Except.error err) → linesSent tr = [])) ∧
    (∀ (fl : Flags) (env : Env), fl.one_shot = true → fl.compile_only = false →
      fl.dump_bytecode = false →
      (∃ j p tr1 err, (Serve.pathnames fl.logs)[j]? = some p ∧
        OneShot p (env.openFile j p) = some (tr1, some err)) →
      ∃ tr f, Serve fl env = some (tr, Outcome.fatal f) ∧
        Event.stdoutWrite ∉ tr ∧ Event.writeMetrics ∉ tr ∧
        (fl.progs ≠ [] → env.watcherErr = none → env.loaderNil = false →
          ∃ p err, f = Fatal.oneShot p err)) := by
  constructor
  · intro logfile opened
    refine ⟨_, _, OneShot_eq logfile opened, ?_, ?_, ?_⟩
    · cases opened with
      | error err => simp [oneShotRet]
      | ok l =>
        obtain ⟨data, fin⟩ := l
        cases fin <;> simp [oneShotRet, retOf]
    · rintro ⟨l, rfl, hl⟩
      simp [oneShotRet, hl, retOf]
    · rintro ⟨err, rfl⟩
      simp [oneShotTrace, linesSent]
  · intro fl env hos hco hdb hfail
    obtain ⟨j, p, tr1, err, hj, hfailed⟩ := hfail
    have hne : Serve.pathnames fl.logs ≠ [] := by
      intro h
      simp [h] at hj
    by_cases hp : fl.progs = []
    · refine ⟨[], Fatal.noProgs, by simp [Serve, hp], by simp, by simp, fun h => absurd hp h⟩
    have hl : fl.logs ≠ [] := by
      intro h
      rw [h, Serve_pathnames_nil] at hne
      exact hne rfl
    cases hw : env.watcherErr with
    | some e =>
      exact ⟨[], Fatal.watcher e, by simp [Serve, hp, hl, hw], by simp, by simp, by simp⟩
    | none =>
      cases hn : env.loaderNil with
      | true =>
        exact ⟨[], Fatal.loader, by simp [Serve, hp, hl, hw, hn], by simp, by simp, by simp⟩
      | false =>
        obtain ⟨es, r, h1, _, _, hiff, hs1, hs2⟩ :=
          Serve_oneShots_spec env (Serve.pathnames fl.logs) 0
        rw [Serve_one_shot_eq fl env hos hco hdb hp hw hn hne, h1]
        cases r with
        | none =>
          exfalso
          have := hiff.mp rfl j p hj
          rw [Nat.zero_add] at this
          rw [OneShot_eq] at hfailed
          simp [this] at hfailed
        | some pe =>
          obtain ⟨q, e⟩ := pe
          exact ⟨_, _, rfl, by simp [hs1], by simp [hs2], fun _ _ _ => ⟨q, e, rfl⟩⟩

/-- An instance of `OneShot_error_iff_and_fatal`: one-shot mode on a path that
cannot be opened. -/
theorem OneShot_error_iff_and_fatal_witness :
    ∃ tr f, Serve ⟨[], [120], [112], true, false, false⟩
        ⟨none, false, 0, fun _ _ => Except.error [101], none, none, false, none⟩ =
          some (tr, Outcome.fatal f) ∧
      Event.stdoutWrite ∉ tr ∧ Event.writeMetrics ∉ tr := by
  obtain ⟨tr, f, h, h1, h2, _⟩ := OneShot_error_iff_and_fatal.2
    ⟨[], [120], [112], true, false, false⟩
    ⟨none, false, 0, fun _ _ => Except.error [101], none, none, false, none⟩
    rfl rfl rfl ⟨0, [120], _, _, by decide, rfl⟩
  exact ⟨tr, f, h, h1, h2⟩

end Mtail
